import Mathlib

/-!
Verification of the retrieval-augmented QA backend (chatbot/backend/src).

The Python sources are shallowly embedded: pure functions become Lean
functions over `List Char` / `String`, floating-point scores become `ℚ`,
Python exceptions in external providers are modelled as `Except`/`Bool`
outcome parameters, and pydantic validation that can raise becomes an
`Option`-returning smart constructor.
-/

namespace RagSpec

/-! ## Basic character/string utilities mirroring Python semantics -/

/-- Python `\s` (ASCII range): space, tab, newline, vertical tab, form feed,
carriage return.  Used by `str.strip()` and the `\s` of the section-header
regex. -/
def pyIsSpace (c : Char) : Bool :=
  c = ' ' || c = '\t' || c = '\n' || c = '\x0b' || c = '\x0c' || c = '\r'

/-- Python `str.strip()` on a character list. -/
def trimPy (l : List Char) : List Char :=
  ((l.dropWhile pyIsSpace).reverse.dropWhile pyIsSpace).reverse

/-- Python `str.strip()`. -/
def pyStrip (s : String) : String :=
  ⟨trimPy s.data⟩

/-- Python `str.lower()` (ASCII case folding). -/
def pyLower (s : String) : String :=
  ⟨s.data.map Char.toLower⟩

/-- Python substring test `needle in hay` on character lists. -/
def containsSub (needle : List Char) : List Char → Bool
  | [] => needle.isEmpty
  | c :: t => needle.isPrefixOf (c :: t) || containsSub needle t

/-- Python `needle in hay` for strings. -/
def strContains (hay needle : String) : Bool :=
  containsSub needle.data hay.data

/-! ## Decimal rendering and parsing of numbers

`natChars` renders a natural number in decimal (the model of Python
f-string interpolation of a nonnegative `int`); `digitsVal` is the model
of `int()` applied to a digit string. -/

/-- The decimal digit character for `d` (callers only use `d < 10`). -/
def digitChar : Nat → Char
  | 0 => '0' | 1 => '1' | 2 => '2' | 3 => '3' | 4 => '4'
  | 5 => '5' | 6 => '6' | 7 => '7' | 8 => '8' | _ => '9'

/-- Decimal rendering worker, structurally recursive on a fuel bound so
that it evaluates inside the kernel; `fuel > n` always suffices since the
argument at least halves every step. -/
def natCharsAux : Nat → Nat → List Char
  | 0, _ => []
  | fuel + 1, n =>
    if n < 10 then [digitChar n]
    else natCharsAux fuel (n / 10) ++ [digitChar (n % 10)]

/-- Decimal digits of `n`, most significant first (Python's rendering of a
nonnegative `int`). -/
def natChars (n : Nat) : List Char :=
  natCharsAux (n + 1) n

theorem natCharsAux_fuel_irrel : ∀ (f1 : Nat) (n f2 : Nat), n < f1 → n < f2 →
    natCharsAux f1 n = natCharsAux f2 n := by
  intro f1
  induction f1 with
  | zero => intro n f2 h1 _; omega
  | succ f1 ih =>
    intro n f2 h1 h2
    cases f2 with
    | zero => omega
    | succ f2 =>
      show (if n < 10 then [digitChar n] else natCharsAux f1 (n / 10) ++ [digitChar (n % 10)])
          = (if n < 10 then [digitChar n] else natCharsAux f2 (n / 10) ++ [digitChar (n % 10)])
      by_cases h : n < 10
      · rw [if_pos h, if_pos h]
      · rw [if_neg h, if_neg h]
        have hdiv : n / 10 < n := Nat.div_lt_self (by omega) (by omega)
        rw [ih (n / 10) f2 (by omega) (by omega)]

theorem natChars_eq (n : Nat) :
    natChars n = if n < 10 then [digitChar n]
      else natChars (n / 10) ++ [digitChar (n % 10)] := by
  unfold natChars
  show (if n < 10 then [digitChar n] else natCharsAux n (n / 10) ++ [digitChar (n % 10)]) = _
  by_cases h : n < 10
  · rw [if_pos h, if_pos h]
  · rw [if_neg h, if_neg h]
    have hdiv : n / 10 < n := Nat.div_lt_self (by omega) (by omega)
    rw [natCharsAux_fuel_irrel n (n / 10) (n / 10 + 1) (by omega) (by omega)]

/-- Numeric value of a digit string (Python `int`). -/
def digitsVal (l : List Char) : Nat :=
  l.foldl (fun acc c => acc * 10 + (c.toNat - 48)) 0

/-- Greedy `\d+`: take a nonempty maximal digit prefix, return its value and
the rest; `none` when the input does not start with a digit. -/
def parseDigits (l : List Char) : Option (Nat × List Char) :=
  if (l.takeWhile Char.isDigit).isEmpty then none
  else some (digitsVal (l.takeWhile Char.isDigit), l.dropWhile Char.isDigit)

/-! ## Passage identifiers (utils/chunking.py, utils/validation.py) -/

/-- `generate_passage_id` from utils/chunking.py:
`f"ch{chapter_num}-sec{section_num}-p{page_num}"`. -/
def generate_passage_id (chapter_num section_num page_num : Nat) : String :=
  ⟨['c', 'h'] ++ natChars chapter_num ++ ['-', 's', 'e', 'c'] ++ natChars section_num
    ++ ['-', 'p'] ++ natChars page_num⟩

/-- `extract_passage_id_components` from utils/validation.py: the anchored
regex `ch(\d+)-sec(\d+)-p(\d+)` matched against the whole string, with the
three groups converted by `int`. -/
def extract_passage_id_components (s : String) : Option (Nat × Nat × Nat) :=
  match s.data with
  | 'c' :: 'h' :: rest =>
    match parseDigits rest with
    | none => none
    | some (ch, rest1) =>
      match rest1 with
      | '-' :: 's' :: 'e' :: 'c' :: rest2 =>
        match parseDigits rest2 with
        | none => none
        | some (sec, rest3) =>
          match rest3 with
          | '-' :: 'p' :: rest4 =>
            match parseDigits rest4 with
            | none => none
            | some (p, rest5) => if rest5.isEmpty then some (ch, sec, p) else none
          | _ => none
      | _ => none
  | _ => none

/-! ### Round-trip lemmas for `natChars` / `digitsVal` -/

theorem digitChar_isDigit (d : Nat) : (digitChar d).isDigit = true := by
  unfold digitChar
  split <;> decide

theorem digitChar_val (d : Nat) (h : d < 10) : (digitChar d).toNat - 48 = d := by
  interval_cases d <;> decide

theorem natChars_ne_nil (n : Nat) : natChars n ≠ [] := by
  rw [natChars_eq]
  split
  · simp
  · simp

theorem natChars_all_digits (n : Nat) : ∀ c ∈ natChars n, c.isDigit = true := by
  induction n using Nat.strong_induction_on with
  | _ n ih =>
    rw [natChars_eq]
    split
    · intro c hc
      simp only [List.mem_singleton] at hc
      subst hc
      exact digitChar_isDigit n
    · intro c hc
      rcases List.mem_append.mp hc with h1 | h2
      · exact ih (n / 10) (Nat.div_lt_self (by omega) (by omega)) c h1
      · simp only [List.mem_singleton] at h2
        subst h2
        exact digitChar_isDigit (n % 10)

theorem foldl_digits_natChars (n : Nat) :
    ∀ a : Nat, (natChars n).foldl (fun acc c => acc * 10 + (c.toNat - 48)) a
      = a * 10 ^ (natChars n).length + n := by
  induction n using Nat.strong_induction_on with
  | _ n ih =>
    intro a
    rw [natChars_eq]
    split
    · next h => simp [digitChar_val n h]
    · rw [List.foldl_append]
      rw [ih (n / 10) (Nat.div_lt_self (by omega) (by omega)) a]
      simp only [List.foldl_cons, List.foldl_nil, List.length_append, List.length_singleton]
      rw [digitChar_val (n % 10) (Nat.mod_lt _ (by omega))]
      rw [pow_succ]
      have hdm := Nat.div_add_mod n 10
      ring_nf
      omega

theorem digitsVal_natChars (n : Nat) : digitsVal (natChars n) = n := by
  unfold digitsVal
  rw [foldl_digits_natChars n 0]
  simp

theorem takeWhile_digits_append (l r : List Char) (hl : ∀ c ∈ l, c.isDigit = true)
    (hr : ∀ h t, r = h :: t → h.isDigit = false) :
    (l ++ r).takeWhile Char.isDigit = l ∧ (l ++ r).dropWhile Char.isDigit = r := by
  induction l with
  | nil =>
    simp only [List.nil_append]
    cases r with
    | nil => simp
    | cons h t =>
      rw [List.takeWhile_cons, List.dropWhile_cons, hr h t rfl]
      simp
  | cons c cs ihl =>
    have hc : c.isDigit = true := hl c (List.mem_cons_self c cs)
    have ih := ihl (fun x hx => hl x (List.mem_cons_of_mem c hx))
    simp only [List.cons_append, List.takeWhile_cons, List.dropWhile_cons, hc]
    simp only [if_true, ih.1, ih.2, and_self]

theorem parseDigits_natChars (n : Nat) (r : List Char)
    (hr : ∀ h t, r = h :: t → h.isDigit = false) :
    parseDigits (natChars n ++ r) = some (n, r) := by
  unfold parseDigits
  have h := takeWhile_digits_append (natChars n) r (natChars_all_digits n) hr
  rw [h.1, h.2]
  have hne : (natChars n).isEmpty = false := by
    cases hcn : natChars n with
    | nil => exact absurd hcn (natChars_ne_nil n)
    | cons a b => rfl
  rw [hne]
  simp [digitsVal_natChars n]

theorem parseDigits_natChars_nil (n : Nat) :
    parseDigits (natChars n) = some (n, []) := by
  rw [← List.append_nil (natChars n)]
  exact parseDigits_natChars n [] (by intro h t ht; simp at ht)

/-- C6: parsing the rendered passage identifier recovers the triple. -/
theorem passage_id_roundtrip (c s p : Nat) (hc : 0 < c) (hs : 0 < s) (hp : 0 < p) :
    extract_passage_id_components (generate_passage_id c s p) = some (c, s, p) := by
  unfold extract_passage_id_components generate_passage_id
  simp only [List.cons_append, List.nil_append, List.append_assoc]
  rw [parseDigits_natChars c _ (by intro h t ht; cases ht; decide)]
  simp only []
  rw [parseDigits_natChars s _ (by intro h t ht; cases ht; decide)]
  simp only []
  rw [parseDigits_natChars_nil p]
  simp

/-! ## Data model of retrieved chunks (Qdrant search results)

A search hit is a dict `{score, payload}`; reranking copies it and adds a
`boosted_score` key, modelled as an `Option` that starts out `none`.
Floating-point similarity scores are modelled as rationals. -/

structure Payload where
  text : String
  chapter : String
  sectionTitle : String
  page : Option Int
  passage_id : String
  source_file : String
deriving DecidableEq

structure RetrievedChunk where
  score : ℚ
  boosted_score : Option ℚ
  payload : Payload
deriving DecidableEq

/-! ## Python `sorted` (stable) with a boolean "keep-before" relation

`sorted(xs, key=k)` is stable: the element being inserted goes after every
already-placed element whose key is less than or equal (for the chosen
order).  `insortBy le x l` keeps `y` before `x` exactly when `le y x`. -/

def insortBy (le : α → α → Bool) (x : α) : List α → List α
  | [] => [x]
  | y :: ys => if le y x then y :: insortBy le x ys else x :: y :: ys

def pySortBy (le : α → α → Bool) (l : List α) : List α :=
  l.foldl (fun acc x => insortBy le x acc) []

theorem insortBy_perm (le : α → α → Bool) (x : α) (l : List α) :
    (insortBy le x l).Perm (x :: l) := by
  induction l with
  | nil => exact List.Perm.refl _
  | cons y ys ih =>
    unfold insortBy
    split
    · exact ((ih.cons y).trans (List.Perm.swap x y ys))
    · exact List.Perm.refl _

theorem foldl_insortBy_perm (le : α → α → Bool) :
    ∀ (l acc : List α), (l.foldl (fun acc x => insortBy le x acc) acc).Perm (acc ++ l) := by
  intro l
  induction l with
  | nil => intro acc; simp
  | cons x xs ih =>
    intro acc
    simp only [List.foldl_cons]
    refine (ih (insortBy le x acc)).trans ?_
    have h1 : (insortBy le x acc ++ xs).Perm ((x :: acc) ++ xs) :=
      (insortBy_perm le x acc).append_right xs
    refine h1.trans ?_
    simpa using List.perm_middle.symm

theorem pySortBy_perm (le : α → α → Bool) (l : List α) : (pySortBy le l).Perm l := by
  simpa using foldl_insortBy_perm le l []

theorem mem_pySortBy (le : α → α → Bool) (l : List α) (x : α) :
    x ∈ pySortBy le l ↔ x ∈ l :=
  (pySortBy_perm le l).mem_iff

theorem insortBy_pairwise (le : α → α → Bool)
    (htot : ∀ a b, le a b = true ∨ le b a = true)
    (htrans : ∀ a b c, le a b = true → le b c = true → le a c = true)
    (x : α) (l : List α) (hl : l.Pairwise (fun a b => le a b = true)) :
    (insortBy le x l).Pairwise (fun a b => le a b = true) := by
  induction l with
  | nil => simp [insortBy]
  | cons y ys ih =>
    rcases List.pairwise_cons.mp hl with ⟨hy, hys⟩
    unfold insortBy
    split
    · next hle =>
      refine List.pairwise_cons.mpr ⟨?_, ih hys⟩
      intro z hz
      rcases List.mem_cons.mp ((insortBy_perm le x ys).mem_iff.mp hz) with hz | hz
      · subst hz; exact hle
      · exact hy z hz
    · next hle =>
      have hxy : le x y = true := by
        rcases htot x y with h | h
        · exact h
        · exact absurd h hle
      refine List.pairwise_cons.mpr ⟨?_, hl⟩
      intro z hz
      rcases List.mem_cons.mp hz with hz | hz
      · subst hz; exact hxy
      · exact htrans x y z hxy (hy z hz)

theorem pySortBy_pairwise (le : α → α → Bool)
    (htot : ∀ a b, le a b = true ∨ le b a = true)
    (htrans : ∀ a b c, le a b = true → le b c = true → le a c = true)
    (l : List α) : (pySortBy le l).Pairwise (fun a b => le a b = true) := by
  unfold pySortBy
  have H : ∀ (l acc : List α), acc.Pairwise (fun a b => le a b = true) →
      (l.foldl (fun acc x => insortBy le x acc) acc).Pairwise (fun a b => le a b = true) := by
    intro l
    induction l with
    | nil => intro acc h; simpa using h
    | cons x xs ih =>
      intro acc h
      simp only [List.foldl_cons]
      exact ih _ (insortBy_pairwise le htot htrans x acc h)
  exact H l [] (by simp)

/-! ## Document-order sorting (retrieval_service.sort_by_document_order) -/

/-- Lexicographic comparison of `(chapter, section, page)` triples: the order
Python uses to compare the tuple sort keys. -/
def tripleLE (a b : Nat × Nat × Nat) : Bool :=
  decide (a.1 < b.1) || (decide (a.1 = b.1) &&
    (decide (a.2.1 < b.2.1) || (decide (a.2.1 = b.2.1) && decide (a.2.2 ≤ b.2.2))))

theorem tripleLE_total (a b : Nat × Nat × Nat) :
    tripleLE a b = true ∨ tripleLE b a = true := by
  simp only [tripleLE, Bool.or_eq_true, Bool.and_eq_true, decide_eq_true_eq]
  omega

theorem tripleLE_trans (a b c : Nat × Nat × Nat) :
    tripleLE a b = true → tripleLE b c = true → tripleLE a c = true := by
  simp only [tripleLE, Bool.or_eq_true, Bool.and_eq_true, decide_eq_true_eq]
  omega

/-- `get_sort_key` from `sort_by_document_order`: the parsed triple, or the
`(999, 999, 999)` fallback when the passage identifier does not parse. -/
def get_sort_key (c : RetrievedChunk) : Nat × Nat × Nat :=
  match extract_passage_id_components c.payload.passage_id with
  | some comps => comps
  | none => (999, 999, 999)

/-- `RetrievalService.sort_by_document_order`: Python's stable `sorted` with
key `get_sort_key`. -/
def sort_by_document_order (chunks : List RetrievedChunk) : List RetrievedChunk :=
  pySortBy (fun a b => tripleLE (get_sort_key a) (get_sort_key b)) chunks

/-- C5 (amended): document-order sort is a stable ascending sort by the key
`(chapter, section, page)` for parseable identifiers and the fallback key
`(999, 999, 999)` for unparseable ones; unparseable chunks therefore sort
after exactly those parseable chunks whose triple is lexicographically below
`(999, 999, 999)`, not after all of them. -/
theorem sort_by_document_order_spec (chunks : List RetrievedChunk) :
    (sort_by_document_order chunks).Perm chunks ∧
    (sort_by_document_order chunks).Pairwise
      (fun a b => tripleLE (get_sort_key a) (get_sort_key b) = true) ∧
    (∀ c : RetrievedChunk, extract_passage_id_components c.payload.passage_id = none →
      get_sort_key c = (999, 999, 999)) ∧
    (∀ (c : RetrievedChunk) (t : Nat × Nat × Nat),
      extract_passage_id_components c.payload.passage_id = some t → get_sort_key c = t) := by
  refine ⟨pySortBy_perm _ chunks, ?_, ?_, ?_⟩
  · exact pySortBy_pairwise _
      (fun a b => tripleLE_total (get_sort_key a) (get_sort_key b))
      (fun a b c => tripleLE_trans (get_sort_key a) (get_sort_key b) (get_sort_key c))
      chunks
  · intro c h
    unfold get_sort_key
    rw [h]
  · intro c t h
    unfold get_sort_key
    rw [h]

/-- A payload with the given passage identifier; the other fields are
irrelevant to sorting. -/
def mkTestPayload (pid : String) (text : String) : Payload :=
  { text := text, chapter := "Chapter 1: Intro", sectionTitle := "Overview",
    page := some 1, passage_id := pid, source_file := "chapter-1.md" }

def unparseableChunk : RetrievedChunk :=
  { score := 9, boosted_score := none, payload := mkTestPayload "not-a-passage-id" "some text here" }

def highChapterChunk : RetrievedChunk :=
  { score := 1, boosted_score := none, payload := mkTestPayload "ch1000-sec1-p1" "other text here" }

/-- C5 counterexample: a chunk with unparseable identifier (fallback key
`(999, 999, 999)`) is placed BEFORE the parseable chunk `ch1000-sec1-p1`
(key `(1000, 1, 1)`), so unparseable identifiers do not always sort after
all parseable ones. -/
theorem sort_by_document_order_fallback_not_last :
    extract_passage_id_components unparseableChunk.payload.passage_id = none ∧
    extract_passage_id_components highChapterChunk.payload.passage_id = some (1000, 1, 1) ∧
    sort_by_document_order [unparseableChunk, highChapterChunk]
      = [unparseableChunk, highChapterChunk] := by
  refine ⟨by decide, by decide, by decide⟩

/-! ## Snippet truncation (utils/chunking.truncate_snippet) -/

/-- Python `text.rsplit(" ", 1)[0]`: everything before the last space, or the
whole list when it contains no space. -/
def rsplitSpaceFirst (l : List Char) : List Char :=
  if ' ' ∈ l then ((l.reverse.dropWhile (fun c => !(c = ' '))).tail).reverse
  else l

/-- `truncate_snippet` from utils/chunking.py: return `text` when it fits,
otherwise cut `text[: max_length - 3]` back to the last space (when there is
one) and append `"..."`. -/
def truncate_snippet (text : String) (max_length : Nat) : String :=
  if text.length ≤ max_length then text
  else ⟨rsplitSpaceFirst (text.data.take (max_length - 3)) ++ ['.', '.', '.']⟩

theorem length_tail_le (l : List α) : l.tail.length ≤ l.length := by
  cases l <;> simp

theorem length_dropWhile_le (p : α → Bool) (l : List α) :
    (l.dropWhile p).length ≤ l.length := by
  induction l with
  | nil => simp
  | cons x xs ih =>
    rw [List.dropWhile_cons]
    split
    · exact Nat.le_succ_of_le ih
    · simp

theorem rsplitSpaceFirst_length_le (l : List Char) :
    (rsplitSpaceFirst l).length ≤ l.length := by
  unfold rsplitSpaceFirst
  split
  · calc ((l.reverse.dropWhile (fun c => !(c = ' '))).tail).reverse.length
        = ((l.reverse.dropWhile (fun c => !(c = ' '))).tail).length := List.length_reverse _
      _ ≤ (l.reverse.dropWhile (fun c => !(c = ' '))).length := length_tail_le _
      _ ≤ l.reverse.length := length_dropWhile_le _ _
      _ = l.length := List.length_reverse _
  · exact Nat.le_refl _

theorem dropWhile_eq_cons_head_false (p : α → Bool) :
    ∀ (l : List α) (c : α) (t : List α), l.dropWhile p = c :: t → p c = false := by
  intro l
  induction l with
  | nil => intro c t h; simp at h
  | cons x xs ih =>
    intro c t h
    rw [List.dropWhile_cons] at h
    split at h
    · exact ih c t h
    · next hpx =>
      injection h with h1 _
      subst h1
      simpa using hpx

theorem rsplitSpaceFirst_space_decomp (l : List Char) (h : ' ' ∈ l) :
    ∃ rest : List Char, l = rsplitSpaceFirst l ++ ' ' :: rest := by
  unfold rsplitSpaceFirst
  rw [if_pos h]
  have hmem : ' ' ∈ l.reverse := List.mem_reverse.mpr h
  have hsplit : l.reverse.takeWhile (fun c => !(c = ' ')) ++ l.reverse.dropWhile (fun c => !(c = ' '))
      = l.reverse := List.takeWhile_append_dropWhile _ _
  have hne : l.reverse.dropWhile (fun c => !(c = ' ')) ≠ [] := by
    intro hnil
    have hmem2 : ' ' ∈ l.reverse.takeWhile (fun c => !(c = ' ')) := by
      rw [← hsplit] at hmem
      rcases List.mem_append.mp hmem with h1 | h1
      · exact h1
      · rw [hnil] at h1; simp at h1
    have := List.mem_takeWhile_imp hmem2
    simp at this
  cases hd : l.reverse.dropWhile (fun c => !(c = ' ')) with
  | nil => exact absurd hd hne
  | cons c t =>
    have hc : c = ' ' := by
      have := dropWhile_eq_cons_head_false (fun c => !(c = ' ')) l.reverse c t hd
      simpa using this
    subst hc
    refine ⟨(l.reverse.takeWhile (fun c => !(c = ' '))).reverse, ?_⟩
    have hrec : l = (l.reverse.dropWhile (fun c => !(c = ' '))).reverse
        ++ (l.reverse.takeWhile (fun c => !(c = ' '))).reverse := by
      rw [← List.reverse_append, hsplit, List.reverse_reverse]
    rw [hd] at hrec
    simpa using hrec

/-- C9 (amended): the snippet is the text itself when it fits; otherwise it is
`text[:197]` cut back to the last space — a whitespace boundary whenever
`text[:197]` contains a space, but a mid-word cut when it does not — with
`"..."` appended, and the result never exceeds the bound. -/
theorem truncate_snippet_spec (text : String) :
    (text.length ≤ 200 → truncate_snippet text 200 = text) ∧
    (200 < text.length →
      (truncate_snippet text 200).data
          = rsplitSpaceFirst (text.data.take 197) ++ ['.', '.', '.'] ∧
      (truncate_snippet text 200).length ≤ 200 ∧
      (' ' ∈ text.data.take 197 →
        ∃ rest : List Char,
          text.data.take 197 = rsplitSpaceFirst (text.data.take 197) ++ ' ' :: rest)) := by
  constructor
  · intro h
    unfold truncate_snippet
    rw [if_pos h]
  · intro h
    have hnot : ¬ text.length ≤ 200 := by omega
    refine ⟨?_, ?_, fun hsp => rsplitSpaceFirst_space_decomp _ hsp⟩
    · unfold truncate_snippet
      rw [if_neg hnot]
    · unfold truncate_snippet
      rw [if_neg hnot]
      show (rsplitSpaceFirst (text.data.take 197) ++ ['.', '.', '.']).length ≤ 200
      rw [List.length_append]
      have h1 : (rsplitSpaceFirst (text.data.take 197)).length ≤ 197 := by
        calc (rsplitSpaceFirst (text.data.take 197)).length
            ≤ (text.data.take 197).length := rsplitSpaceFirst_length_le _
          _ ≤ 197 := by rw [List.length_take]; omega
      simpa using Nat.add_le_add h1 (Nat.le_refl 3)

set_option maxRecDepth 40000 in
/-- C9 counterexample: a 201-character single "word" (no whitespace at all) is
truncated to its first 197 characters plus the ellipsis — necessarily a
mid-word cut, since the text contains no whitespace boundary. -/
theorem truncate_snippet_midword_cut :
    (truncate_snippet ⟨List.replicate 201 'a'⟩ 200).data
        = List.replicate 197 'a' ++ ['.', '.', '.'] ∧
    ' ' ∉ (List.replicate 201 'a') ∧
    truncate_snippet ⟨List.replicate 201 'a'⟩ 200 ≠ ⟨List.replicate 201 'a'⟩ := by
  refine ⟨by decide, by decide, by decide⟩

/-! ## Reranking by section proximity (retrieval_service.rerank_by_section_proximity)

`chapter_counts` models the insertion-ordered Python dict built by the
counting loop: an association list whose keys appear in first-encountered
order.  `pyMaxByVal` models `max(chapter_counts, key=chapter_counts.get)`:
fold left, replacing the current best only on a strictly greater value, so
ties keep the earliest key. -/

def bump : List (String × Nat) → String → List (String × Nat)
  | [], c => [(c, 1)]
  | (k, n) :: rest, c => if k = c then (k, n + 1) :: rest else (k, n) :: bump rest c

/-- The `chapter_counts` dict as an insertion-ordered association list. -/
def countsOf (chaps : List String) : List (String × Nat) :=
  chaps.foldl bump []

def chapter_counts (chunks : List RetrievedChunk) : List (String × Nat) :=
  countsOf (chunks.map (fun ch => ch.payload.chapter))

/-- Python `max(..., key=get)` over the dict iteration order. -/
def pyMaxByVal : List (String × Nat) → Option (String × Nat)
  | [] => none
  | p :: rest => some (rest.foldl (fun best q => if best.2 < q.2 then q else best) p)

def most_common_chapter (chunks : List RetrievedChunk) : Option String :=
  (pyMaxByVal (chapter_counts chunks)).map Prod.fst

/-- `RetrievalService.rerank_by_section_proximity` with the configured
`top_k_rerank` as a parameter: boost the majority chapter's scores by 10%,
stable-sort descending by boosted score, keep the top `top_k_rerank`. -/
def rerank_by_section_proximity (top_k_rerank : Nat) (chunks : List RetrievedChunk) :
    List RetrievedChunk :=
  if chunks.isEmpty then [] else
  let mc := most_common_chapter chunks
  let boosted := chunks.map (fun ch =>
    { score := ch.score,
      boosted_score := some (if some ch.payload.chapter = mc
        then ch.score * (11 / 10) else ch.score),
      payload := ch.payload })
  (pySortBy (fun a b => decide (b.boosted_score.getD 0 ≤ a.boosted_score.getD 0)) boosted).take
    top_k_rerank

/-! ### Characterizing the majority chapter

The dict keys appear in first-encountered order, so
`max(dict, key=dict.get)` picks, among the chapters of maximal count, the
one encountered first in retrieval order. -/

/-- First occurrences of a list's elements, in order (the key order of an
insertion-ordered dict built over that list). -/
def dedupFirst : List String → List String
  | [] => []
  | c :: rest => c :: dedupFirst (rest.filter (fun x => !(x = c)))
termination_by l => l.length
decreasing_by simpa using Nat.lt_succ_of_le (List.length_filter_le _ rest)

theorem dedupFirst_nil : dedupFirst [] = [] := by
  rw [dedupFirst]

theorem dedupFirst_cons (c : String) (rest : List String) :
    dedupFirst (c :: rest) = c :: dedupFirst (rest.filter (fun x => !(x = c))) := by
  rw [dedupFirst]

/-- Value lookup in the association-list model of the dict. -/
def lookupVal (c : String) : List (String × Nat) → Nat
  | [] => 0
  | (k, n) :: rest => if k = c then n else lookupVal c rest

theorem mem_dedupFirst : ∀ (n : Nat) (l : List String), l.length ≤ n →
    ∀ x, (x ∈ dedupFirst l ↔ x ∈ l) := by
  intro n
  induction n with
  | zero =>
    intro l hl x
    cases l with
    | nil => simp [dedupFirst_nil]
    | cons c rest => simp at hl
  | succ n ih =>
    intro l hl x
    cases l with
    | nil => simp [dedupFirst_nil]
    | cons c rest =>
      rw [dedupFirst_cons]
      simp only [List.mem_cons]
      have hlen : (rest.filter (fun x => !(x = c))).length ≤ n := by
        have h1 := List.length_filter_le (fun x => !(x = c)) rest
        simp only [List.length_cons] at hl
        omega
      rw [ih _ hlen x]
      simp only [List.mem_filter, Bool.not_eq_true', decide_eq_false_iff_not]
      by_cases hx : x = c
      · subst hx; simp
      · simp [hx]

theorem nodup_dedupFirst : ∀ (n : Nat) (l : List String), l.length ≤ n →
    (dedupFirst l).Nodup := by
  intro n
  induction n with
  | zero =>
    intro l hl
    cases l with
    | nil => simp [dedupFirst_nil]
    | cons c rest => simp at hl
  | succ n ih =>
    intro l hl
    cases l with
    | nil => simp [dedupFirst_nil]
    | cons c rest =>
      rw [dedupFirst_cons]
      have hlen : (rest.filter (fun x => !(x = c))).length ≤ n := by
        have h1 := List.length_filter_le (fun x => !(x = c)) rest
        simp only [List.length_cons] at hl
        omega
      refine List.nodup_cons.mpr ⟨?_, ih _ hlen⟩
      intro hc
      have := (mem_dedupFirst n _ hlen c).mp hc
      simp at this

theorem bump_keys (c : String) : ∀ acc : List (String × Nat),
    (bump acc c).map Prod.fst =
      if c ∈ acc.map Prod.fst then acc.map Prod.fst else acc.map Prod.fst ++ [c] := by
  intro acc
  induction acc with
  | nil => simp [bump]
  | cons p rest ih =>
    obtain ⟨k, n⟩ := p
    rw [bump]
    by_cases hk : k = c
    · subst hk
      simp
    · rw [if_neg hk]
      simp only [List.map_cons, ih]
      have : (c ∈ k :: rest.map Prod.fst) ↔ c ∈ rest.map Prod.fst := by
        simp only [List.mem_cons]
        constructor
        · rintro (h | h)
          · exact absurd h.symm hk
          · exact h
        · exact Or.inr
      by_cases hmem : c ∈ rest.map Prod.fst
      · rw [if_pos hmem, if_pos (this.mpr hmem)]
      · rw [if_neg hmem, if_neg (fun hc => hmem (this.mp hc))]
        simp

theorem bump_lookup (c c' : String) : ∀ acc : List (String × Nat),
    lookupVal c' (bump acc c) =
      if c' = c then lookupVal c' acc + 1 else lookupVal c' acc := by
  intro acc
  induction acc with
  | nil =>
    by_cases h : c' = c
    · subst h; simp [bump, lookupVal]
    · rw [bump, if_neg h]
      show (if c = c' then 1 else lookupVal c' []) = lookupVal c' []
      rw [if_neg (fun hc : c = c' => h hc.symm)]
  | cons p rest ih =>
    obtain ⟨k, n⟩ := p
    rw [bump]
    by_cases hk : k = c
    · rw [if_pos hk]
      show (if k = c' then n + 1 else lookupVal c' rest)
          = if c' = c then (if k = c' then n else lookupVal c' rest) + 1
            else (if k = c' then n else lookupVal c' rest)
      by_cases h : k = c'
      · rw [if_pos h, if_pos (h.symm.trans hk), if_pos h]
      · rw [if_neg h, if_neg (fun hcc : c' = c => h (hk.trans hcc.symm)), if_neg h]
    · rw [if_neg hk]
      show (if k = c' then n else lookupVal c' (bump rest c))
          = if c' = c then (if k = c' then n else lookupVal c' rest) + 1
            else (if k = c' then n else lookupVal c' rest)
      by_cases h : k = c'
      · have hcc : ¬ c' = c := fun hcc => hk ((h.symm ▸ rfl : k = c').trans hcc)
        rw [if_pos h, if_neg hcc, if_pos h]
      · rw [if_neg h, ih]
        by_cases hcc : c' = c
        · rw [if_pos hcc, if_pos hcc, if_neg h]
        · rw [if_neg hcc, if_neg hcc, if_neg h]

theorem countsOf_lookup : ∀ (chaps : List String) (acc : List (String × Nat)) (c : String),
    lookupVal c (chaps.foldl bump acc) = lookupVal c acc + chaps.count c := by
  intro chaps
  induction chaps with
  | nil => intro acc c; simp [List.count_nil]
  | cons a rest ih =>
    intro acc c
    simp only [List.foldl_cons]
    rw [ih (bump acc a) c, bump_lookup a c acc, List.count_cons]
    by_cases h : c = a
    · subst h; simp; omega
    · have hba : (a == c) = false := by
        simp only [beq_eq_false_iff_ne, ne_eq]
        exact fun hc => h hc.symm
      simp [h, hba]

/-- Key insertion order of the dict: fold inserting unseen keys at the end. -/
def insertNewFold (ks : List String) (l : List String) : List String :=
  l.foldl (fun ks c => if c ∈ ks then ks else ks ++ [c]) ks

theorem countsOf_keys : ∀ (chaps : List String) (acc : List (String × Nat)),
    (chaps.foldl bump acc).map Prod.fst = insertNewFold (acc.map Prod.fst) chaps := by
  intro chaps
  induction chaps with
  | nil => intro acc; simp [insertNewFold]
  | cons a rest ih =>
    intro acc
    simp only [List.foldl_cons]
    rw [ih (bump acc a)]
    unfold insertNewFold
    simp only [List.foldl_cons]
    rw [bump_keys a acc]

theorem insertNewFold_eq_dedupFirst : ∀ (l ks : List String),
    insertNewFold ks l = ks ++ dedupFirst (l.filter (fun x => !(decide (x ∈ ks)))) := by
  intro l
  induction l with
  | nil => intro ks; simp [insertNewFold, dedupFirst_nil]
  | cons c rest ih =>
    intro ks
    unfold insertNewFold
    simp only [List.foldl_cons]
    by_cases hc : c ∈ ks
    · rw [if_pos hc]
      have hih := ih ks
      unfold insertNewFold at hih
      rw [hih]
      congr 2
      rw [List.filter_cons]
      simp [hc]
    · rw [if_neg hc]
      have hih := ih (ks ++ [c])
      unfold insertNewFold at hih
      rw [hih]
      rw [List.filter_cons]
      have hpc : (!(decide (c ∈ ks))) = true := by simp [hc]
      rw [if_pos hpc]
      rw [dedupFirst_cons]
      have hfilter : (rest.filter (fun x => !(decide (x ∈ ks)))).filter (fun x => !(x = c))
          = rest.filter (fun x => !(decide (x ∈ ks ++ [c]))) := by
        rw [List.filter_filter]
        apply List.filter_congr
        intro x _
        simp only [List.mem_append, List.mem_singleton, Bool.and_eq_true, Bool.not_eq_true',
          decide_eq_false_iff_not, not_or]
        by_cases h1 : x = c
        · simp [h1]
        · by_cases h2 : x ∈ ks <;> simp [h1, h2]
      rw [hfilter]
      simp

theorem pairVal_of_nodup : ∀ (ps : List (String × Nat)), (ps.map Prod.fst).Nodup →
    ∀ p ∈ ps, lookupVal p.1 ps = p.2 := by
  intro ps
  induction ps with
  | nil => intro _ p hp; simp at hp
  | cons q rest ih =>
    intro hnd p hp
    obtain ⟨k, n⟩ := q
    simp only [List.map_cons, List.nodup_cons] at hnd
    rcases List.mem_cons.mp hp with hp | hp
    · subst hp
      simp [lookupVal]
    · have hk : k ≠ p.1 := by
        intro hk
        exact hnd.1 (hk ▸ List.mem_map_of_mem Prod.fst hp)
      rw [lookupVal, if_neg hk]
      exact ih hnd.2 p hp

theorem foldlMax_spec : ∀ (rest : List (String × Nat)) (p r : String × Nat),
    rest.foldl (fun best q => if best.2 < q.2 then q else best) p = r →
    p.2 ≤ r.2 ∧ (∀ q ∈ rest, q.2 ≤ r.2) ∧
      (r = p ∨ ∃ pre suf, rest = pre ++ r :: suf ∧ p.2 < r.2 ∧ ∀ q ∈ pre, q.2 < r.2) := by
  intro rest
  induction rest with
  | nil =>
    intro p r h
    simp only [List.foldl_nil] at h
    subst h
    exact ⟨Nat.le_refl _, by simp, Or.inl rfl⟩
  | cons q rest' ih =>
    intro p r h
    simp only [List.foldl_cons] at h
    rcases ih _ r h with ⟨h1, h2, h3⟩
    by_cases hlt : p.2 < q.2
    · rw [if_pos hlt] at h1 h3
      refine ⟨Nat.le_of_lt (Nat.lt_of_lt_of_le hlt h1), ?_, ?_⟩
      · intro x hx
        rcases List.mem_cons.mp hx with hx | hx
        · subst hx; exact h1
        · exact h2 x hx
      · rcases h3 with h3 | ⟨pre, suf, hsplit, hlt', hpre⟩
        · subst h3
          exact Or.inr ⟨[], rest', by simp, hlt, by simp⟩
        · refine Or.inr ⟨q :: pre, suf, by rw [hsplit]; simp, Nat.lt_of_lt_of_le hlt h1, ?_⟩
          intro x hx
          rcases List.mem_cons.mp hx with hx | hx
          · subst hx; exact hlt'
          · exact hpre x hx
    · rw [if_neg hlt] at h1 h3
      have hq : q.2 ≤ p.2 := Nat.le_of_not_lt hlt
      refine ⟨h1, ?_, ?_⟩
      · intro x hx
        rcases List.mem_cons.mp hx with hx | hx
        · subst hx; exact Nat.le_trans hq h1
        · exact h2 x hx
      · rcases h3 with h3 | ⟨pre, suf, hsplit, hlt', hpre⟩
        · exact Or.inl h3
        · refine Or.inr ⟨q :: pre, suf, by rw [hsplit]; simp, hlt', ?_⟩
          intro x hx
          rcases List.mem_cons.mp hx with hx | hx
          · subst hx; exact Nat.lt_of_le_of_lt hq hlt'
          · exact hpre x hx

theorem idx_filter_lt (p : String → Bool) : ∀ (l : List String) (x y : String),
    x ∈ l.filter p → y ∈ l.filter p →
    (l.filter p).indexOf x < (l.filter p).indexOf y → l.indexOf x < l.indexOf y := by
  intro l
  induction l with
  | nil => intro x y hx _ _; simp at hx
  | cons a t ih =>
    intro x y hx hy hlt
    rw [List.filter_cons] at hx hy hlt
    by_cases hpa : p a
    · rw [if_pos hpa] at hx hy hlt
      by_cases hxa : x = a
      · subst hxa
        have hy0 : y ≠ x := by
          intro hyx
          subst hyx
          exact Nat.lt_irrefl _ hlt
        rw [List.indexOf_cons_self]
        rw [List.indexOf_cons_ne t (fun hax : x = y => hy0 hax.symm)]
        exact Nat.succ_pos _
      · by_cases hya : y = a
        · subst hya
          rw [List.indexOf_cons_self, List.indexOf_cons_ne _ (fun hax : y = x => hxa hax.symm)]
            at hlt
          exact absurd hlt (Nat.not_lt_zero _)
        · have hx' : x ∈ t.filter p := by
            rcases List.mem_cons.mp hx with h | h
            · exact absurd h hxa
            · exact h
          have hy' : y ∈ t.filter p := by
            rcases List.mem_cons.mp hy with h | h
            · exact absurd h hya
            · exact h
          rw [List.indexOf_cons_ne _ (fun hax : a = x => hxa hax.symm),
            List.indexOf_cons_ne _ (fun hay : a = y => hya hay.symm)] at hlt
          rw [List.indexOf_cons_ne t (fun hax : a = x => hxa hax.symm),
            List.indexOf_cons_ne t (fun hay : a = y => hya hay.symm)]
          exact Nat.succ_lt_succ (ih x y hx' hy' (Nat.lt_of_succ_lt_succ hlt))
    · rw [if_neg hpa] at hx hy hlt
      have hxa : x ≠ a := fun hxa => hpa (hxa ▸ (List.mem_filter.mp hx).2)
      have hya : y ≠ a := fun hya => hpa (hya ▸ (List.mem_filter.mp hy).2)
      rw [List.indexOf_cons_ne t (fun hax : a = x => hxa hax.symm),
        List.indexOf_cons_ne t (fun hay : a = y => hya hay.symm)]
      exact Nat.succ_lt_succ (ih x y hx hy hlt)

theorem dedupFirst_order : ∀ (n : Nat) (l : List String), l.length ≤ n →
    ∀ (pre suf : List String) (c c' : String),
    dedupFirst l = pre ++ c :: suf → c' ∈ suf → l.indexOf c < l.indexOf c' := by
  intro n
  induction n with
  | zero =>
    intro l hl pre suf c c' hsplit hc'
    cases l with
    | nil =>
      rw [dedupFirst_nil] at hsplit
      cases pre <;> simp at hsplit
    | cons a t => simp at hl
  | succ n ih =>
    intro l hl pre suf c c' hsplit hc'
    cases l with
    | nil =>
      rw [dedupFirst_nil] at hsplit
      cases pre <;> simp at hsplit
    | cons a t =>
      rw [dedupFirst_cons] at hsplit
      have hlen : (t.filter (fun x => !(x = a))).length ≤ n := by
        have h1 := List.length_filter_le (fun x => !(x = a)) t
        simp only [List.length_cons] at hl
        omega
      cases pre with
      | nil =>
        simp only [List.nil_append, List.cons.injEq] at hsplit
        obtain ⟨hca, hsuf⟩ := hsplit
        have hc't : c' ∈ t.filter (fun x => !(x = a)) := by
          refine (mem_dedupFirst n _ hlen c').mp ?_
          rw [hsuf]; exact hc'
        have hc'ne : c' ≠ a := by
          have h2 := (List.mem_filter.mp hc't).2
          simp at h2
          exact h2
        rw [← hca]
        rw [List.indexOf_cons_self, List.indexOf_cons_ne t (fun h : a = c' => hc'ne h.symm)]
        exact Nat.succ_pos _
      | cons b pre' =>
        simp only [List.cons_append, List.cons.injEq] at hsplit
        obtain ⟨-, hD⟩ := hsplit
        have hcmem : c ∈ t.filter (fun x => !(x = a)) := by
          refine (mem_dedupFirst n _ hlen c).mp ?_
          rw [hD]
          exact List.mem_append.mpr (Or.inr (List.mem_cons_self c suf))
        have hc'mem : c' ∈ t.filter (fun x => !(x = a)) := by
          refine (mem_dedupFirst n _ hlen c').mp ?_
          rw [hD]
          exact List.mem_append.mpr (Or.inr (List.mem_cons_of_mem c hc'))
        have hcne : c ≠ a := by
          have h2 := (List.mem_filter.mp hcmem).2; simp at h2; exact h2
        have hc'ne : c' ≠ a := by
          have h2 := (List.mem_filter.mp hc'mem).2; simp at h2; exact h2
        have hidx : (t.filter (fun x => !(x = a))).indexOf c
            < (t.filter (fun x => !(x = a))).indexOf c' :=
          ih (t.filter (fun x => !(x = a))) hlen pre' suf c c' hD hc'
        have hmain := idx_filter_lt (fun x => !(x = a)) t c c' hcmem hc'mem hidx
        rw [List.indexOf_cons_ne t (fun h : a = c => hcne h.symm),
          List.indexOf_cons_ne t (fun h : a = c' => hc'ne h.symm)]
        exact Nat.succ_lt_succ hmain

theorem chapter_counts_keys (chunks : List RetrievedChunk) :
    (chapter_counts chunks).map Prod.fst
      = dedupFirst (chunks.map fun k => k.payload.chapter) := by
  unfold chapter_counts countsOf
  rw [countsOf_keys]
  rw [insertNewFold_eq_dedupFirst]
  simp

theorem chapter_counts_val (chunks : List RetrievedChunk) :
    ∀ p ∈ chapter_counts chunks,
      p.2 = (chunks.map fun k => k.payload.chapter).count p.1 := by
  intro p hp
  have hnd : ((chapter_counts chunks).map Prod.fst).Nodup := by
    rw [chapter_counts_keys]
    exact nodup_dedupFirst _ _ (Nat.le_refl _)
  have h1 := pairVal_of_nodup _ hnd p hp
  have h2 := countsOf_lookup (chunks.map fun k => k.payload.chapter) [] p.1
  unfold chapter_counts countsOf at h1
  rw [h2] at h1
  simpa [lookupVal] using h1.symm

theorem mem_chapter_counts_of_chapter (chunks : List RetrievedChunk) (c' : String)
    (h : c' ∈ chunks.map fun k => k.payload.chapter) :
    ∃ q ∈ chapter_counts chunks, q.1 = c' := by
  have hk : c' ∈ (chapter_counts chunks).map Prod.fst := by
    rw [chapter_counts_keys]
    exact (mem_dedupFirst _ _ (Nat.le_refl _) c').mpr h
  rcases List.mem_map.mp hk with ⟨q, hq, hq1⟩
  exact ⟨q, hq, hq1⟩

/-- C4: reranking boosts by the fixed factor 11/10 exactly the chunks of the
majority chapter (highest count; ties to the chapter encountered first in
retrieval order), leaves every other boosted score equal to the raw score,
and returns at most `top_k_rerank` chunks. -/
theorem rerank_by_section_proximity_spec (K : Nat) (chunks : List RetrievedChunk)
    (h : chunks ≠ []) :
    ∃ c : String,
      most_common_chapter chunks = some c ∧
      (∀ ch ∈ chunks,
        (chunks.map fun k => k.payload.chapter).count ch.payload.chapter
          ≤ (chunks.map fun k => k.payload.chapter).count c) ∧
      (∀ ch ∈ chunks,
        (chunks.map fun k => k.payload.chapter).count ch.payload.chapter
            = (chunks.map fun k => k.payload.chapter).count c →
        (chunks.map fun k => k.payload.chapter).indexOf c
          ≤ (chunks.map fun k => k.payload.chapter).indexOf ch.payload.chapter) ∧
      (∀ b ∈ rerank_by_section_proximity K chunks,
        b.boosted_score = some (if b.payload.chapter = c
          then b.score * (11 / 10) else b.score)) ∧
      (rerank_by_section_proximity K chunks).length ≤ K := by
  have hchaps : (chunks.map fun k => k.payload.chapter) ≠ [] := by
    intro hnil
    exact h (List.map_eq_nil_iff.mp hnil)
  have hcne : chapter_counts chunks ≠ [] := by
    intro hnil
    have hk := chapter_counts_keys chunks
    rw [hnil] at hk
    cases hm : chunks.map fun k => k.payload.chapter with
    | nil => exact hchaps hm
    | cons a t =>
      rw [hm, dedupFirst_cons] at hk
      simp at hk
  cases hcounts : chapter_counts chunks with
  | nil => exact absurd hcounts hcne
  | cons p0 restP =>
    set r : String × Nat := restP.foldl (fun best q => if best.2 < q.2 then q else best) p0 with hr
    have hmc : most_common_chapter chunks = some r.1 := by
      unfold most_common_chapter pyMaxByVal
      rw [hcounts]
      rfl
    rcases foldlMax_spec restP p0 r hr.symm with ⟨hp0, hall, hpos⟩
    have hrmem : r ∈ chapter_counts chunks := by
      rw [hcounts]
      rcases hpos with hrp | ⟨pre, suf, hsplit, _, _⟩
      · rw [hrp]; exact List.mem_cons_self _ _
      · rw [hsplit]
        exact List.mem_cons_of_mem p0 (List.mem_append.mpr (Or.inr (List.mem_cons_self r suf)))
    have hrval : r.2 = (chunks.map fun k => k.payload.chapter).count r.1 :=
      chapter_counts_val chunks r hrmem
    have hmax : ∀ q ∈ chapter_counts chunks, q.2 ≤ r.2 := by
      intro q hq
      rw [hcounts] at hq
      rcases List.mem_cons.mp hq with hq | hq
      · rw [hq]; exact hp0
      · exact hall q hq
    -- unified split of the counts list around `r` with strictly smaller values before it
    have hsplit : ∃ preP sufP, chapter_counts chunks = preP ++ r :: sufP ∧
        ∀ q ∈ preP, q.2 < r.2 := by
      rcases hpos with hrp | ⟨pre, suf, hsp, hlt, hpre⟩
      · exact ⟨[], restP, by rw [hcounts, hrp]; rfl, by simp⟩
      · refine ⟨p0 :: pre, suf, by rw [hcounts, hsp]; simp, ?_⟩
        intro q hq
        rcases List.mem_cons.mp hq with hq | hq
        · rw [hq]; exact hlt
        · exact hpre q hq
    obtain ⟨preP, sufP, hcsplit, hprelt⟩ := hsplit
    refine ⟨r.1, hmc, ?_, ?_, ?_, ?_⟩
    · intro ch hch
      have hm : ch.payload.chapter ∈ chunks.map fun k => k.payload.chapter :=
        List.mem_map_of_mem _ hch
      rcases mem_chapter_counts_of_chapter chunks _ hm with ⟨q, hq, hq1⟩
      have hqv := chapter_counts_val chunks q hq
      rw [hq1] at hqv
      rw [← hqv, ← hrval]
      exact hmax q hq
    · intro ch hch heq
      by_cases hcc : ch.payload.chapter = r.1
      · rw [hcc]
      · have hm : ch.payload.chapter ∈ chunks.map fun k => k.payload.chapter :=
          List.mem_map_of_mem _ hch
        rcases mem_chapter_counts_of_chapter chunks _ hm with ⟨q, hq, hq1⟩
        have hqv := chapter_counts_val chunks q hq
        rw [hq1] at hqv
        have hq2 : q.2 = r.2 := by rw [hqv, heq, ← hrval]
        have hqnpre : q ∉ preP := by
          intro hqpre
          have := hprelt q hqpre
          omega
        have hqsuf : q ∈ sufP := by
          rw [hcsplit] at hq
          rcases List.mem_append.mp hq with h1 | h1
          · exact absurd h1 hqnpre
          · rcases List.mem_cons.mp h1 with h1 | h1
            · exact absurd (h1 ▸ hq1 : r.1 = ch.payload.chapter) (fun hx => hcc hx.symm)
            · exact h1
        have hc'keys : ch.payload.chapter ∈ sufP.map Prod.fst := by
          rw [← hq1]
          exact List.mem_map_of_mem Prod.fst hqsuf
        have hkeysplit : dedupFirst (chunks.map fun k => k.payload.chapter)
            = preP.map Prod.fst ++ r.1 :: sufP.map Prod.fst := by
          rw [← chapter_counts_keys, hcsplit]
          simp
        have := dedupFirst_order (chunks.map fun k => k.payload.chapter).length
          (chunks.map fun k => k.payload.chapter) (Nat.le_refl _)
          (preP.map Prod.fst) (sufP.map Prod.fst) r.1 ch.payload.chapter
          hkeysplit hc'keys
        exact Nat.le_of_lt this
    · intro b hb
      have hne : chunks.isEmpty = false := by
        cases chunks with
        | nil => exact absurd rfl h
        | cons a t => rfl
      unfold rerank_by_section_proximity at hb
      rw [hne] at hb
      simp only [Bool.false_eq_true, if_false] at hb
      have hb2 := List.take_subset _ _ hb
      have hb3 := (mem_pySortBy _ _ b).mp hb2
      rcases List.mem_map.mp hb3 with ⟨ch, _, hcheq⟩
      rw [← hcheq]
      simp only []
      rw [hmc]
      simp only [Option.some.injEq]
    · have hne : chunks.isEmpty = false := by
        cases chunks with
        | nil => exact absurd rfl h
        | cons a t => rfl
      unfold rerank_by_section_proximity
      rw [hne]
      simp only [Bool.false_eq_true, if_false]
      calc (List.take K _).length ≤ K := List.length_take_le K _

/-! ## Sources (models/source.py) and citation building

`Source` is a pydantic model whose constructor validates: `passage_id`
matches `ch\d+-sec\d+-p\d+` or is `selected-text`, `chapter`/`section`/
`snippet` are nonempty, `snippet` is at most 200 characters and `page`
(when present) is at least 1.  `mkSource` returns `none` exactly when
construction would raise a `ValidationError`. -/

structure Source where
  passage_id : String
  chapter : String
  sectionTitle : String
  page : Option Int
  snippet : String
deriving DecidableEq

def passage_id_pattern_ok (s : String) : Bool :=
  (extract_passage_id_components s).isSome || s = "selected-text"

def mkSource (passage_id chapter sectionTitle : String) (page : Option Int)
    (snippet : String) : Option Source :=
  if passage_id_pattern_ok passage_id
      && decide (1 ≤ chapter.length)
      && decide (1 ≤ sectionTitle.length)
      && (match page with
          | none => true
          | some p => decide (1 ≤ p))
      && decide (1 ≤ snippet.length)
      && decide (snippet.length ≤ 200)
  then some ⟨passage_id, chapter, sectionTitle, page, snippet⟩
  else none

/-- `RetrievalService.chunks_to_sources`: build a Source per chunk with the
truncated snippet, silently skipping chunks whose Source construction
raises. -/
def chunks_to_sources (chunks : List RetrievedChunk) : List Source :=
  chunks.filterMap (fun ch =>
    mkSource ch.payload.passage_id ch.payload.chapter ch.payload.sectionTitle
      ch.payload.page (truncate_snippet ch.payload.text 200))

/-- `RetrievalService.get_context_text`: `"\n\n"`-joined `[passage_id] text`
lines (empty string for no chunks). -/
def get_context_text (chunks : List RetrievedChunk) : String :=
  if chunks.isEmpty then "" else
  String.intercalate "\n\n"
    (chunks.map (fun ch => "[" ++ ch.payload.passage_id ++ "] " ++ ch.payload.text))

/-! ## Retrieval pipeline boundary (retrieval_service.retrieve_and_rerank)

The embedding provider and the vector index are external services: the
embedding outcome is a boolean (an exception in `generate_embedding` is
caught and turned into an empty result list) and the search results are a
parameter. -/

/-- `RetrievalService.retrieve_chunks`: the caught-exception path returns
`[]`; otherwise the Qdrant results are passed through. -/
def retrieve_chunks (embed_ok : Bool) (search_results : List RetrievedChunk) :
    List RetrievedChunk :=
  if embed_ok then search_results else []

/-- `RetrievalService.retrieve_and_rerank`: retrieve, rerank, sort by
document order, convert to sources; `([], [])` when nothing was retrieved. -/
def retrieve_and_rerank (top_k_rerank : Nat) (embed_ok : Bool)
    (search_results : List RetrievedChunk) : List RetrievedChunk × List Source :=
  let retrieved := retrieve_chunks embed_ok search_results
  if retrieved.isEmpty then ([], []) else
  let reranked := rerank_by_section_proximity top_k_rerank retrieved
  let sorted := sort_by_document_order reranked
  (sorted, chunks_to_sources sorted)

/-! ## Answer generation (answer_generation_service.py) -/

/-- The refusal phrase patterns scanned for in the generated text. -/
def refusal_patterns : List String :=
  ["I cannot answer this question",
   "The selected text does not contain",
   "The available context does not contain",
   "insufficient information"]

/-- Case-insensitive refusal-phrase detection:
`any(pattern.lower() in answer.lower() for pattern in refusal_patterns)`. -/
def detectRefusal (answer : String) : Bool :=
  refusal_patterns.any (fun pattern => strContains (pyLower answer) (pyLower pattern))

/-- The citation check of `_estimate_confidence`:
`"[ch" in answer or "[sec" in answer or "[selected-text]" in answer`. -/
def hasCitationMarker (answer : String) : Bool :=
  strContains answer "[ch" || strContains answer "[sec" || strContains answer "[selected-text]"

/-- `AnswerGenerationService._estimate_confidence` (float arithmetic modelled
over ℚ): base 0.5, +0.2 for a citation marker, +0.2 for length in [50, 500]
or +0.1 for length > 500, +0.1 for a clean "stop" finish, capped at 1.0. -/
def _estimate_confidence (answer : String) (finish_reason : String) : ℚ :=
  min ((1 : ℚ) / 2
    + (if hasCitationMarker answer then (1 : ℚ) / 5 else 0)
    + (if 50 ≤ answer.length ∧ answer.length ≤ 500 then (1 : ℚ) / 5
       else if 500 < answer.length then (1 : ℚ) / 10 else 0)
    + (if finish_reason = "stop" then (1 : ℚ) / 10 else 0)) 1

/-- `AnswerGenerationService.generate_answer`, with the OpenAI call as an
`Except` parameter: `.error msg` models a raised exception whose string
representation is `msg`; `.ok (content, finish_reason)` a successful
completion.  Returns `(answer, confidence, refused, refusal_reason)`. -/
def generate_answer (provider : Except String (String × String)) :
    String × ℚ × Bool × Option String :=
  match provider with
  | .error e =>
    ("An error occurred while generating the answer. Please try again.", 0, true,
      some ("Error: " ++ e))
  | .ok (content, finish_reason) =>
    if detectRefusal (pyStrip content) then
      (pyStrip content, 0, true, some "Insufficient context to answer question")
    else
      (pyStrip content, _estimate_confidence (pyStrip content) finish_reason, false, none)

theorem generate_answer_error (e : String) :
    generate_answer (.error e)
      = ("An error occurred while generating the answer. Please try again.", 0, true,
          some ("Error: " ++ e)) := rfl

theorem generate_answer_ok (content finish_reason : String) :
    generate_answer (.ok (content, finish_reason))
      = if detectRefusal (pyStrip content)
        then (pyStrip content, 0, true, some "Insufficient context to answer question")
        else (pyStrip content, _estimate_confidence (pyStrip content) finish_reason,
          false, none) := rfl

/-! ## The chat boundary (api/routes/chat.py)

Requests that fail query/context validation raise HTTP 422 and never
produce an Answer; the model covers the Answer-producing paths.  The
`ChatResponse` fields relevant to the claims are collected in
`ChatOutcome`. -/

inductive QueryMode where
  | book_wide
  | selected_text
deriving DecidableEq

def REFUSAL_MESSAGE : String :=
  "I cannot answer this question based on the provided book content. "
    ++ "The available context does not contain sufficient information about the requested topic. "
    ++ "Please try:\n"
    ++ "- Rephrasing your question\n"
    ++ "- Selecting specific text from the book (selected-text mode)\n"
    ++ "- Asking about topics covered in the book"

structure ChatOutcome where
  answer : String
  sources : List Source
  refused : Bool
  refusal_reason : Option String
  confidence : ℚ
deriving DecidableEq

/-- The `chat` route handler on its Answer-producing paths.  External
outcomes are parameters: `embed_ok` and `search_results` for retrieval,
`provider` for the generation call.  In selected-text mode the route builds
the single user-selection Source inline; when that pydantic construction
raises (snippet too long for a >200-character context, or empty context)
the route's generic handler returns the internal-error refusal. -/
def chat (top_k_rerank : Nat) (mode : QueryMode) (context : Option String)
    (embed_ok : Bool) (search_results : List RetrievedChunk)
    (provider : Except String (String × String)) : ChatOutcome :=
  match mode with
  | .book_wide =>
    let res := retrieve_and_rerank top_k_rerank embed_ok search_results
    if res.1.isEmpty then
      { answer := REFUSAL_MESSAGE, sources := [], refused := true,
        refusal_reason := some "No relevant content found in book", confidence := 0 }
    else
      let gen := generate_answer provider
      if gen.2.2.1 then
        { answer := REFUSAL_MESSAGE, sources := [], refused := true,
          refusal_reason := gen.2.2.2, confidence := gen.2.1 }
      else
        { answer := gen.1, sources := res.2, refused := false,
          refusal_reason := gen.2.2.2, confidence := gen.2.1 }
  | .selected_text =>
    let ctx := context.getD ""
    let snippet : String :=
      if 200 < ctx.length then ⟨ctx.data.take 200 ++ ['.', '.', '.']⟩ else ctx
    match mkSource "selected-text" "User-Selected Text" "User Selection" none snippet with
    | none =>
      { answer := "An error occurred while processing your question. Please try again.",
        sources := [], refused := true,
        refusal_reason := some "Internal error: validation error for Source", confidence := 0 }
    | some src =>
      let gen := generate_answer provider
      if gen.2.2.1 then
        { answer := REFUSAL_MESSAGE, sources := [], refused := true,
          refusal_reason := gen.2.2.2, confidence := gen.2.1 }
      else
        { answer := gen.1, sources := [src], refused := false,
          refusal_reason := gen.2.2.2, confidence := gen.2.1 }

/-! ## Boundary theorems -/

theorem generate_answer_reason (provider : Except String (String × String)) :
    ((generate_answer provider).2.2.1 = true ↔ (generate_answer provider).2.2.2 ≠ none) := by
  cases provider with
  | error e => rw [generate_answer_error]; simp
  | ok p =>
    obtain ⟨content, finish_reason⟩ := p
    rw [generate_answer_ok]
    by_cases hd : detectRefusal (pyStrip content) = true
    · rw [if_pos hd]; simp
    · rw [if_neg (by simpa using hd)]; simp

/-- C1 (amended): at the chat boundary, `refused = true` iff `sources = []`
and `refusal_reason` is set, and `refused = false` iff `refusal_reason` is
absent; but a non-refused Answer's text may be empty (the provider's
stripped text is passed through verbatim) and its sources list may be empty
(every per-chunk Source construction can fail). -/
theorem chat_refusal_invariant (top_k_rerank : Nat) (mode : QueryMode)
    (context : Option String) (embed_ok : Bool)
    (search_results : List RetrievedChunk)
    (provider : Except String (String × String)) :
    ((chat top_k_rerank mode context embed_ok search_results provider).refused = true ↔
      ((chat top_k_rerank mode context embed_ok search_results provider).sources = [] ∧
       (chat top_k_rerank mode context embed_ok search_results provider).refusal_reason ≠ none)) ∧
    ((chat top_k_rerank mode context embed_ok search_results provider).refused = false ↔
      (chat top_k_rerank mode context embed_ok search_results provider).refusal_reason = none) := by
  have hgen := generate_answer_reason provider
  cases mode with
  | book_wide =>
    unfold chat
    by_cases hres : (retrieve_and_rerank top_k_rerank embed_ok search_results).1.isEmpty = true
    · simp [hres]
    · simp only [hres, Bool.false_eq_true, if_false]
      by_cases href : (generate_answer provider).2.2.1 = true
      · simp only [href, if_true]
        simp [hgen.mp href]
      · simp only [Bool.not_eq_true] at href
        simp only [href, Bool.false_eq_true, if_false]
        have hnone : (generate_answer provider).2.2.2 = none := by
          by_contra hcon
          have := hgen.mpr hcon
          rw [href] at this
          exact Bool.false_ne_true this
        simp [hnone]
  | selected_text =>
    unfold chat
    cases hsrc : mkSource "selected-text" "User-Selected Text" "User Selection" none
        (if 200 < (context.getD "").length
         then ⟨(context.getD "").data.take 200 ++ ['.', '.', '.']⟩ else context.getD "") with
    | none => simp [hsrc]
    | some src =>
      simp only [hsrc]
      by_cases href : (generate_answer provider).2.2.1 = true
      · simp only [href, if_true]
        simp [hgen.mp href]
      · simp only [Bool.not_eq_true] at href
        simp only [href, Bool.false_eq_true, if_false]
        have hnone : (generate_answer provider).2.2.2 = none := by
          by_contra hcon
          have := hgen.mpr hcon
          rw [href] at this
          exact Bool.false_ne_true this
        simp [hnone]

/-- A retrieved chunk whose payload text is empty: its snippet fails Source
validation, so it yields no citation. -/
def emptyTextChunk : RetrievedChunk :=
  { score := 1, boosted_score := none, payload := mkTestPayload "ch1-sec1-p1" "" }

/-- C1 counterexample: with one retrieved chunk whose text is empty and a
provider that returns the empty string with a clean stop, the boundary
Answer has `refused = false` yet an empty answer text and an empty sources
list — so `refused = false` does not imply non-empty answer and sources. -/
theorem chat_not_refused_empty_answer_sources :
    (chat 10 .book_wide none true [emptyTextChunk] (.ok ("", "stop"))).refused = false ∧
    (chat 10 .book_wide none true [emptyTextChunk] (.ok ("", "stop"))).answer = "" ∧
    (chat 10 .book_wide none true [emptyTextChunk] (.ok ("", "stop"))).sources = [] ∧
    (chat 10 .book_wide none true [emptyTextChunk] (.ok ("", "stop"))).refusal_reason = none := by
  refine ⟨by decide, by decide, by decide, by decide⟩

/-- C2: a failed query embedding makes `retrieve_and_rerank` return
`([], [])`, and the boundary call then returns the deterministic refusal
with reason "No relevant content found in book" (a value, not a raise). -/
theorem embedding_failure_deterministic_refusal (top_k_rerank : Nat)
    (context : Option String) (search_results : List RetrievedChunk)
    (provider : Except String (String × String)) :
    retrieve_and_rerank top_k_rerank false search_results = ([], []) ∧
    chat top_k_rerank .book_wide context false search_results provider =
      { answer := REFUSAL_MESSAGE, sources := [], refused := true,
        refusal_reason := some "No relevant content found in book", confidence := 0 } := by
  constructor
  · simp [retrieve_and_rerank, retrieve_chunks]
  · simp [chat, retrieve_and_rerank, retrieve_chunks]

/-- C3: when the provider's text matches a refusal phrase, the boundary
Answer is the fixed standardized refusal message with confidence 0 and an
emptied sources list, in both modes (book-wide shown for any retrieval that
reached generation, selected-text for any valid context). -/
theorem provider_refusal_standardized (top_k_rerank : Nat) (context : Option String)
    (search_results : List RetrievedChunk) (content finish_reason ctx : String)
    (hmatch : detectRefusal (pyStrip content) = true)
    (hret : (retrieve_and_rerank top_k_rerank true search_results).1 ≠ [])
    (hctx1 : 1 ≤ ctx.length) (hctx2 : ctx.length ≤ 200) :
    chat top_k_rerank .book_wide context true search_results (.ok (content, finish_reason)) =
      { answer := REFUSAL_MESSAGE, sources := [], refused := true,
        refusal_reason := some "Insufficient context to answer question", confidence := 0 } ∧
    chat top_k_rerank .selected_text (some ctx) true search_results
        (.ok (content, finish_reason)) =
      { answer := REFUSAL_MESSAGE, sources := [], refused := true,
        refusal_reason := some "Insufficient context to answer question", confidence := 0 } := by
  have hgen : generate_answer (.ok (content, finish_reason))
      = (pyStrip content, 0, true, some "Insufficient context to answer question") := by
    unfold generate_answer
    simp [hmatch]
  constructor
  · unfold chat
    have hres : (retrieve_and_rerank top_k_rerank true search_results).1.isEmpty = false := by
      cases hr : (retrieve_and_rerank top_k_rerank true search_results).1 with
      | nil => exact absurd hr hret
      | cons a t => rfl
    simp [hres, hgen]
  · unfold chat
    have hsnip : ¬ (200 < ctx.length) := by omega
    have hsrc : mkSource "selected-text" "User-Selected Text" "User Selection" none ctx
        = some ⟨"selected-text", "User-Selected Text", "User Selection", none, ctx⟩ := by
      unfold mkSource passage_id_pattern_ok
      have h1 : decide (1 ≤ ctx.length) = true := decide_eq_true hctx1
      have h2 : decide (ctx.length ≤ 200) = true := decide_eq_true hctx2
      simp [h1, h2]
      exact ⟨by decide, by decide⟩
    simp only [Option.getD_some, if_neg hsnip, hsrc, hgen]
    simp

/-- C8: the confidence heuristic equals the additive formula — 0.5 base,
+0.2 for a citation marker, +0.2 for length within [50, 500] or +0.1 for
longer, +0.1 for a clean "stop" finish, capped at 1.0 — and always lies in
[0.5, 1.0]. -/
theorem estimate_confidence_spec (answer finish_reason : String) :
    _estimate_confidence answer finish_reason
        = min ((1 : ℚ) / 2
            + (if hasCitationMarker answer then (1 : ℚ) / 5 else 0)
            + (if 50 ≤ answer.length ∧ answer.length ≤ 500 then (1 : ℚ) / 5
               else if 500 < answer.length then (1 : ℚ) / 10 else 0)
            + (if finish_reason = "stop" then (1 : ℚ) / 10 else 0)) 1 ∧
    (1 : ℚ) / 2 ≤ _estimate_confidence answer finish_reason ∧
    _estimate_confidence answer finish_reason ≤ 1 := by
  refine ⟨rfl, ?_, ?_⟩
  · unfold _estimate_confidence
    refine le_min ?_ (by norm_num)
    split_ifs <;> norm_num
  · exact min_le_right _ _

/-! ## Content extraction (services/content_extractor.py) -/

/-- Python `content.split("\n")` on character lists. -/
def splitOnChar (c : Char) : List Char → List (List Char)
  | [] => [[]]
  | x :: rest =>
    match splitOnChar c rest with
    | [] => [[]]
    | cur :: done => if x = c then [] :: cur :: done else (x :: cur) :: done

def splitLines (s : String) : List String :=
  (splitOnChar '\n' s.data).map (fun l => ⟨l⟩)

/-- Python `"\n".join(lines)` on character lists. -/
def joinWith (sep : List Char) : List (List Char) → List Char
  | [] => []
  | [x] => x
  | x :: y :: rest => x ++ sep ++ joinWith sep (y :: rest)

/-- `"\n".join(current_content).strip()`. -/
def joinLines (ls : List String) : String :=
  ⟨trimPy (joinWith ['\n'] (ls.map (fun s => s.data)))⟩

/-- The section-header regex `^##\s+(.+)$` applied to one line with
`re.match`: the line starts with `##`, its third character is whitespace,
and at least one character follows it. -/
def isSectionHeader (line : String) : Bool :=
  match line.data with
  | '#' :: '#' :: c :: rest => pyIsSpace c && !rest.isEmpty
  | _ => false

/-- `match.group(1).strip()`: everything after the `##`, stripped. -/
def sectionTitleOf (line : String) : String :=
  ⟨trimPy (line.data.drop 2)⟩

structure SectionRec where
  section_title : String
  section_content : String
deriving DecidableEq

/-- The line loop of `ContentExtractor.extract_sections`, carrying the
current section title and accumulated content lines. -/
def extractSectionsGo (current_section : Option String) (current_content : List String) :
    List String → List SectionRec
  | [] =>
    match current_section with
    | some t => [⟨t, joinLines current_content⟩]
    | none => []
  | line :: rest =>
    if isSectionHeader line then
      match current_section with
      | some t => ⟨t, joinLines current_content⟩
          :: extractSectionsGo (some (sectionTitleOf line)) [] rest
      | none => extractSectionsGo (some (sectionTitleOf line)) [] rest
    else
      extractSectionsGo current_section (current_content ++ [line]) rest

/-- `ContentExtractor.extract_sections`: split the body at `##` headings;
content before the first heading is dropped. -/
def extract_sections (content : String) : List SectionRec :=
  extractSectionsGo none [] (splitLines content)

/-! ## Chunking service (services/chunking_service.py)

The langchain `MarkdownTextSplitter` is an external dependency; the
splitter is therefore a function parameter. -/

/-- The `chapter_info` dict: the extractor always fills all three keys, but
`chunk_file`/`chunk_section` read them with `.get` defaults, so the fields
are optional here. -/
structure ChapterInfo where
  chapter_num : Option Nat
  chapter_title : Option String
  chapter_full : Option String
deriving DecidableEq

/-- The `if not chapter_info:` defaulting at the top of `chunk_file`. -/
def resolve_chapter_info : Option ChapterInfo → ChapterInfo
  | none => ⟨some 0, some "Unknown", some "Unknown Chapter"⟩
  | some ci => ci

structure ChunkDict where
  text : String
  chapter : String
  sectionTitle : String
  page : Nat
  passage_id : String
  source_file : String
deriving DecidableEq

/-- `ChunkingService.chunk_section`: one chunk dict per splitter output,
page = 1-based position, passage id from (chapter, section, page). -/
def chunk_section (split_markdown_text : String → List String) (section_content : String)
    (chapter_info : ChapterInfo) (section_title : String) (section_num : Nat)
    (source_file : String) : List ChunkDict :=
  ((split_markdown_text section_content).enum).map (fun p =>
    { text := p.2,
      chapter := chapter_info.chapter_full.getD "Unknown Chapter",
      sectionTitle := section_title,
      page := p.1 + 1,
      passage_id := generate_passage_id (chapter_info.chapter_num.getD 0) section_num (p.1 + 1),
      source_file := source_file })

/-- `ChunkingService.validate_chunk`: required fields non-falsy (a Python
string is falsy iff empty, i.e. iff its length is 0) and text length
within [100, 2000]. -/
def validate_chunk (c : ChunkDict) : Bool :=
  !(decide (c.text.length = 0)) && !(decide (c.chapter.length = 0))
    && !(decide (c.sectionTitle.length = 0))
    && !(decide (c.passage_id.length = 0)) && !(decide (c.source_file.length = 0))
    && decide (100 ≤ c.text.length) && decide (c.text.length ≤ 2000)

structure ProcessedFile where
  file_path : String
  chapter_info : Option ChapterInfo
  sections : List SectionRec
  raw_content : String

/-- `ChunkingService.chunk_file`: default the chapter info, synthesize a
single full-body section when the extractor found none, and chunk every
section with 1-based section numbers. -/
def chunk_file (split_markdown_text : String → List String) (pf : ProcessedFile) :
    List ChunkDict :=
  let ci := resolve_chapter_info pf.chapter_info
  let sections := if pf.sections.isEmpty
    then [⟨ci.chapter_title.getD "Main Content", pf.raw_content⟩]
    else pf.sections
  (sections.enum.map (fun p =>
    chunk_section split_markdown_text p.2.section_content ci p.2.section_title (p.1 + 1)
      pf.file_path)).flatten

/-- The 2-character chunk produced by feeding the splitter output `["hi"]`
through `chunk_section`. -/
def shortChunk : ChunkDict :=
  { text := "hi", chapter := "Chapter 1: T", sectionTitle := "Intro", page := 1,
    passage_id := "ch1-sec1-p1", source_file := "chapter-1.md" }

/-- An otherwise-complete chunk whose text is `n` copies of `'a'`. -/
def chunkOfTextLen (n : Nat) : ChunkDict :=
  { text := ⟨List.replicate n 'a'⟩, chapter := "C", sectionTitle := "S", page := 1,
    passage_id := "ch1-sec1-p1", source_file := "f.md" }

/-- C7: the length filter is dead code.  `chunk_section` emits one chunk per
splitter output with no filtering at all — here a 2-character chunk that
`validate_chunk` (the intended filter, with thresholds 100/2000 inclusive)
rejects is nevertheless in the output, because `validate_chunk` has no
caller anywhere in the pipeline. -/
theorem chunk_section_keeps_invalid_chunk :
    chunk_section (fun _ => ["hi"]) "hi" ⟨some 1, some "T", some "Chapter 1: T"⟩ "Intro" 1
        "chapter-1.md" = [shortChunk] ∧
    validate_chunk shortChunk = false ∧
    (∀ (split : String → List String) (content : String) (ci : ChapterInfo)
        (st : String) (sn : Nat) (sf : String),
      (chunk_section split content ci st sn sf).map (fun c => c.text) = split content) := by
  refine ⟨by decide, by decide, ?_⟩
  intro split content ci st sn sf
  unfold chunk_section
  rw [List.map_map]
  have hcomp : ((fun c : ChunkDict => c.text) ∘ (fun p : Nat × String =>
      ({ text := p.2, chapter := ci.chapter_full.getD "Unknown Chapter", sectionTitle := st,
         page := p.1 + 1,
         passage_id := generate_passage_id (ci.chapter_num.getD 0) sn (p.1 + 1),
         source_file := sf } : ChunkDict))) = Prod.snd := rfl
  rw [hcomp]
  exact List.enum_map_snd _

theorem length_string_mk (l : List Char) : (⟨l⟩ : String).length = l.length := rfl

theorem chunkOfTextLen_length (n : Nat) : (chunkOfTextLen n).text.length = n := by
  show (⟨List.replicate n 'a'⟩ : String).length = n
  rw [length_string_mk, List.length_replicate]

/-- C7 thresholds: `validate_chunk` accepts exactly the inclusive range
[100, 2000] on an otherwise-complete chunk. -/
theorem validate_chunk_thresholds :
    validate_chunk (chunkOfTextLen 100) = true ∧
    validate_chunk (chunkOfTextLen 2000) = true ∧
    validate_chunk (chunkOfTextLen 99) = false ∧
    validate_chunk (chunkOfTextLen 2001) = false := by
  refine ⟨?_, ?_, ?_, ?_⟩ <;>
  · unfold validate_chunk
    rw [chunkOfTextLen_length]
    decide

theorem extractSectionsGo_some_ne_nil :
    ∀ (lines : List String) (t : String) (cc : List String),
      extractSectionsGo (some t) cc lines ≠ [] := by
  intro lines
  induction lines with
  | nil => intro t cc; simp [extractSectionsGo]
  | cons line rest ih =>
    intro t cc
    unfold extractSectionsGo
    by_cases hl : isSectionHeader line = true
    · simp [hl]
    · simp only [Bool.not_eq_true] at hl
      simp only [hl, Bool.false_eq_true, if_false]
      exact ih t (cc ++ [line])

theorem extractSectionsGo_none_nil_iff :
    ∀ (lines : List String) (cc : List String),
      (extractSectionsGo none cc lines = [] ↔
        ∀ line ∈ lines, isSectionHeader line = false) := by
  intro lines
  induction lines with
  | nil => intro cc; simp [extractSectionsGo]
  | cons line rest ih =>
    intro cc
    unfold extractSectionsGo
    by_cases hl : isSectionHeader line = true
    · simp only [hl, if_true]
      constructor
      · intro hnil
        exact absurd hnil (extractSectionsGo_some_ne_nil rest _ [])
      · intro hall
        have := hall line (List.mem_cons_self _ _)
        rw [hl] at this
        exact absurd this (by simp)
    · simp only [Bool.not_eq_true] at hl
      simp only [hl, Bool.false_eq_true, if_false]
      rw [ih (cc ++ [line])]
      constructor
      · intro hall l hml
        rcases List.mem_cons.mp hml with hml | hml
        · rw [hml]; exact hl
        · exact hall l hml
      · intro hall l hml
        exact hall l (List.mem_cons_of_mem _ hml)

/-- C10: a body with no `##` heading yields an empty section list (and only
such bodies do), and `chunk_file` then does not drop the file: it chunks
the entire body as a single synthesized section numbered 1, titled with the
chapter title (default "Main Content"). -/
theorem chunk_file_full_content_fallback (content : String)
    (split_markdown_text : String → List String) (pf : ProcessedFile) (hpf : pf.sections = []) :
    (extract_sections content = [] ↔
      ∀ line ∈ splitLines content, isSectionHeader line = false) ∧
    chunk_file split_markdown_text pf
      = chunk_section split_markdown_text pf.raw_content (resolve_chapter_info pf.chapter_info)
          ((resolve_chapter_info pf.chapter_info).chapter_title.getD "Main Content") 1
          pf.file_path := by
  constructor
  · exact extractSectionsGo_none_nil_iff (splitLines content) []
  · unfold chunk_file
    rw [hpf]
    simp [List.enum]

/-! ## Witnesses: the hypothesis-bearing theorems applied at concrete inputs -/

theorem passage_id_roundtrip_witness :
    0 < 3 ∧ 0 < 2 ∧ 0 < 45 ∧
    extract_passage_id_components (generate_passage_id 3 2 45) = some (3, 2, 45) :=
  ⟨by decide, by decide, by decide, passage_id_roundtrip 3 2 45 (by decide) (by decide) (by decide)⟩

theorem sort_by_document_order_spec_witness :
    (sort_by_document_order [unparseableChunk, highChapterChunk]).Perm
        [unparseableChunk, highChapterChunk] ∧
    (sort_by_document_order [unparseableChunk, highChapterChunk]).Pairwise
      (fun a b => tripleLE (get_sort_key a) (get_sort_key b) = true) ∧
    (∀ c : RetrievedChunk, extract_passage_id_components c.payload.passage_id = none →
      get_sort_key c = (999, 999, 999)) ∧
    (∀ (c : RetrievedChunk) (t : Nat × Nat × Nat),
      extract_passage_id_components c.payload.passage_id = some t → get_sort_key c = t) :=
  sort_by_document_order_spec [unparseableChunk, highChapterChunk]

theorem truncate_snippet_spec_witness :
    ("a short snippet".length ≤ 200 → truncate_snippet "a short snippet" 200 = "a short snippet") ∧
    (200 < "a short snippet".length →
      (truncate_snippet "a short snippet" 200).data
          = rsplitSpaceFirst ("a short snippet".data.take 197) ++ ['.', '.', '.'] ∧
      (truncate_snippet "a short snippet" 200).length ≤ 200 ∧
      (' ' ∈ "a short snippet".data.take 197 →
        ∃ rest : List Char,
          "a short snippet".data.take 197
            = rsplitSpaceFirst ("a short snippet".data.take 197) ++ ' ' :: rest)) :=
  truncate_snippet_spec "a short snippet"

def wChunkA1 : RetrievedChunk :=
  { score := 3, boosted_score := none,
    payload := { text := "alpha", chapter := "A", sectionTitle := "s1", page := some 1,
                 passage_id := "ch1-sec1-p1", source_file := "f.md" } }

def wChunkB : RetrievedChunk :=
  { score := 2, boosted_score := none,
    payload := { text := "beta", chapter := "B", sectionTitle := "s1", page := some 1,
                 passage_id := "ch2-sec1-p1", source_file := "f.md" } }

def wChunkA2 : RetrievedChunk :=
  { score := 1, boosted_score := none,
    payload := { text := "gamma", chapter := "A", sectionTitle := "s2", page := some 1,
                 passage_id := "ch1-sec2-p1", source_file := "f.md" } }

theorem rerank_by_section_proximity_spec_witness :
    [wChunkA1, wChunkB, wChunkA2] ≠ [] ∧
    (∃ c : String,
      most_common_chapter [wChunkA1, wChunkB, wChunkA2] = some c ∧
      (∀ ch ∈ [wChunkA1, wChunkB, wChunkA2],
        ([wChunkA1, wChunkB, wChunkA2].map fun k => k.payload.chapter).count ch.payload.chapter
          ≤ ([wChunkA1, wChunkB, wChunkA2].map fun k => k.payload.chapter).count c) ∧
      (∀ ch ∈ [wChunkA1, wChunkB, wChunkA2],
        ([wChunkA1, wChunkB, wChunkA2].map fun k => k.payload.chapter).count ch.payload.chapter
            = ([wChunkA1, wChunkB, wChunkA2].map fun k => k.payload.chapter).count c →
        ([wChunkA1, wChunkB, wChunkA2].map fun k => k.payload.chapter).indexOf c
          ≤ ([wChunkA1, wChunkB, wChunkA2].map fun k => k.payload.chapter).indexOf
              ch.payload.chapter) ∧
      (∀ b ∈ rerank_by_section_proximity 2 [wChunkA1, wChunkB, wChunkA2],
        b.boosted_score = some (if b.payload.chapter = c
          then b.score * (11 / 10) else b.score)) ∧
      (rerank_by_section_proximity 2 [wChunkA1, wChunkB, wChunkA2]).length ≤ 2) :=
  ⟨by decide, rerank_by_section_proximity_spec 2 [wChunkA1, wChunkB, wChunkA2] (by decide)⟩

theorem chat_refusal_invariant_witness :
    ((chat 5 .book_wide none true [] (.error "timeout")).refused = true ↔
      ((chat 5 .book_wide none true [] (.error "timeout")).sources = [] ∧
       (chat 5 .book_wide none true [] (.error "timeout")).refusal_reason ≠ none)) ∧
    ((chat 5 .book_wide none true [] (.error "timeout")).refused = false ↔
      (chat 5 .book_wide none true [] (.error "timeout")).refusal_reason = none) :=
  chat_refusal_invariant 5 .book_wide none true [] (.error "timeout")

def c3Content : String :=
  "I cannot answer this question based on the provided book content."

def c3Ctx : String := "The optimal chunk size is 500-1000 tokens."

theorem provider_refusal_standardized_witness :
    detectRefusal (pyStrip c3Content) = true ∧
    (retrieve_and_rerank 5 true [wChunkA1]).1 ≠ [] ∧
    1 ≤ c3Ctx.length ∧ c3Ctx.length ≤ 200 ∧
    (chat 5 .book_wide none true [wChunkA1] (.ok (c3Content, "stop")) =
      { answer := REFUSAL_MESSAGE, sources := [], refused := true,
        refusal_reason := some "Insufficient context to answer question", confidence := 0 } ∧
     chat 5 .selected_text (some c3Ctx) true [wChunkA1] (.ok (c3Content, "stop")) =
      { answer := REFUSAL_MESSAGE, sources := [], refused := true,
        refusal_reason := some "Insufficient context to answer question", confidence := 0 }) :=
  ⟨by decide, by decide, by decide, by decide,
    provider_refusal_standardized 5 none [wChunkA1] c3Content "stop" c3Ctx
      (by decide) (by decide) (by decide) (by decide)⟩

def noHeadingFile : ProcessedFile :=
  { file_path := "intro.md",
    chapter_info := some ⟨some 1, some "Intro", some "Chapter 1: Intro"⟩,
    sections := [],
    raw_content := "# Chapter 1: Intro\nBody text without any subsection heading." }

theorem chunk_file_full_content_fallback_witness :
    noHeadingFile.sections = [] ∧
    ((extract_sections noHeadingFile.raw_content = [] ↔
      ∀ line ∈ splitLines noHeadingFile.raw_content, isSectionHeader line = false) ∧
    chunk_file (fun s => [s]) noHeadingFile
      = chunk_section (fun s => [s]) noHeadingFile.raw_content
          (resolve_chapter_info noHeadingFile.chapter_info)
          ((resolve_chapter_info noHeadingFile.chapter_info).chapter_title.getD "Main Content") 1
          noHeadingFile.file_path) :=
  ⟨rfl, chunk_file_full_content_fallback noHeadingFile.raw_content (fun s => [s])
    noHeadingFile rfl⟩

end RagSpec
